import Mathlib

/-!
Verification development for the EURLEX/CELLAR metadata extractor
(`eu_rules_metadata_extractor2.py`).

The script is shallowly embedded: network effects are made explicit by
passing mocked endpoint behaviour (`Env`, attempt-outcome functions) as
arguments, exceptions become `Except`, the `-1` sentinel of the SPARQL
helper becomes `Option.none`, and the nondeterministic completion order
of the thread pool becomes an explicit permutation parameter.
-/

namespace EUReg

/-- The CDM ontology namespace (the `CDM_PREFIX` constant of the script). -/
def CDM_NS : String := "http://publications.europa.eu/ontology/cdm#"

/-- The `property_mapping` dict of the script, in its insertion order. -/
def property_mapping : List (String × String) :=
  [("celex", CDM_NS ++ "resource_legal_id_celex"),
   ("author", CDM_NS ++ "work_created_by_agent"),
   ("responsible_body", CDM_NS ++ "regulation_service_responsible"),
   ("form", CDM_NS ++ "resource_legal_type"),
   ("title", CDM_NS ++ "work_title"),
   ("addressee", CDM_NS ++ "resource_legal_addresses_country"),
   ("date_adoption", CDM_NS ++ "work_date_document"),
   ("date_in_force", CDM_NS ++ "resource_legal_date_entry-into-force"),
   ("date_end_validity", CDM_NS ++ "resource_legal_date_end-of-validity"),
   ("directory_code", CDM_NS ++ "resource_legal_is_about_concept_directory-code"),
   ("procedure_code", CDM_NS ++ "procedure_code_interinstitutional_basis_legal"),
   ("eurovoc", CDM_NS ++ "work_is_about_concept_eurovoc"),
   ("subject_matters", CDM_NS ++ "resource_legal_is_about_subject-matter")]

/-- The `metadata_header_row` constant of the script. -/
def metadata_header_row : List String :=
  ["celex", "author", "responsible_body", "form", "title", "addressee",
   "date_adoption", "date_in_force", "date_end_validity",
   "directory_code", "procedure_code", "eurovoc", "subject_matters"]

/-- Python `s.strip()`: drop whitespace from both ends (kept at the
character-list level so that it evaluates inside the kernel). -/
def py_strip (s : String) : String :=
  String.mk (((s.data.dropWhile Char.isWhitespace).reverse.dropWhile Char.isWhitespace).reverse)

/-- Python `s.lower()` restricted to the ASCII range, which is all the
script compares against (the literal "celex"). -/
def py_lower (s : String) : String :=
  String.mk (s.data.map Char.toLower)

/-- The `read_celex_list` helper. The input file is modelled after CSV
parsing, as the list of rows of cells; `row[0]` is the first cell.
Empty rows are skipped (`if not row`), each first cell is stripped, and
cells that are empty or equal to "celex" case-insensitively are skipped. -/
def read_celex_list (rows : List (List String)) : List String :=
  rows.filterMap (fun row =>
    match row with
    | [] => none
    | cell0 :: _ =>
      let cell := py_strip cell0
      if cell = "" ∨ py_lower cell = "celex" then none else some cell)

/-- Spec-side restatement of the Identifier Loader as a pipeline: first
cells, trimmed, with blank cells and case-insensitive "celex" header
cells dropped, in order (refinement target for the loader claim). -/
def celex_list_spec (rows : List (List String)) : List String :=
  ((rows.filterMap List.head?).map py_strip).filter
    (fun c => decide (¬ (c = "" ∨ py_lower c = "celex")))

/-- The delay slept by `backoff_sleep(attempt)`:
`min(cap, base * 2 ** attempt) + random.uniform(0, 0.3)` with
`base = 0.8`, `cap = 8.0`; the jitter sample is passed explicitly. -/
def backoff_delay (attempt : Nat) (jitter : ℚ) : ℚ :=
  min 8 ((4 / 5) * 2 ^ attempt) + jitter

/-- The retry loop of `execute_sparql_turtle`: `fuel` remaining loop
iterations, `i` the current attempt index. `results i` is the mocked
outcome of attempt `i` (`none` models a raised transport or endpoint
exception). Returns the payload (or `none`, modelling the `-1`
sentinel) together with the list of backoff delays slept, one per
failed attempt. -/
def sparql_attempts (results : Nat → Option String) (jitter : Nat → ℚ) :
    Nat → Nat → Option String × List ℚ
  | 0, _ => (none, [])
  | fuel + 1, i =>
    match results i with
    | some payload => (some payload, [])
    | none =>
      let rest := sparql_attempts results jitter fuel (i + 1)
      (rest.1, backoff_delay i (jitter i) :: rest.2)

/-- `execute_sparql_turtle`: `for attempt in range(4)`, starting at
attempt 0; `-1` on exhaustion becomes `none`. -/
def execute_sparql_turtle (results : Nat → Option String) (jitter : Nat → ℚ) :
    Option String × List ℚ :=
  sparql_attempts results jitter 4 0

/-- Python `uri.split(sep)` for a one-character separator, at the
character-list level; `acc` is the reversed current segment. -/
def split_slash : List Char → List Char → List (List Char)
  | [], acc => [acc.reverse]
  | c :: cs, acc =>
    if c = '/' then acc.reverse :: split_slash cs [] else split_slash cs (c :: acc)

/-- Python `sep.join(parts)` for the one-character separator of
`get_string_label`. -/
def join_slash : List (List Char) → List Char
  | [] => []
  | [x] => x
  | x :: y :: xs => x ++ '/' :: join_slash (y :: xs)

/-- The URI actually queried by `get_string_label`: for
`directory_code` the final path segment is replaced by its first two
characters (`parts[-1][:2]`), every other property key queries the URI
unmodified. -/
def get_string_label_uri (uri : String) (pred : String) : String :=
  if pred = "directory_code" then
    let parts := split_slash uri.data []
    if parts = [] then uri
    else String.mk (join_slash (parts.dropLast ++ [(parts.getLastD []).take 2]))
  else uri

/-- `get_string_label`: dereference a URI to its English label.
`labelOf` is the mocked outcome of the skos label SELECT query at the
(possibly truncated) URI; `none` covers both zero bindings and retry
exhaustion, which the script maps to the empty string. -/
def get_string_label (labelOf : String → Option String) (uri : String) (pred : String) : String :=
  (labelOf (get_string_label_uri uri pred)).getD ""

/-- A parsed RDF object: the `isinstance(o, Literal)` branch of the
script distinguishes literals from reference URIs. -/
inductive RDFObject
  | lit (s : String)
  | ref (uri : String)
deriving DecidableEq

/-- A graph triple as iterated by `g.triples((None, None, None))`. -/
structure Triple where
  subj : String
  pred : String
  obj : RDFObject
deriving DecidableEq

/-- Reverse lookup of a predicate URI in `property_mapping`
(`key = next(k for k, v in property_mapping.items() if v == p_str)`,
guarded by `p_str in pm_values`). -/
def property_lookup (p : String) : Option String :=
  (property_mapping.find? (fun kv => kv.2 == p)).map Prod.fst

/-- Mocked network environment for one `process_celex` call:
`fetchGraph` is the parsed result of the CONSTRUCT query (`none`
models the `-1` sentinel), `labelOf` the label SELECT outcome, and
`fallbackTitle` the value returned by `get_title_fallback`. -/
structure Env where
  fetchGraph : String → Option (List Triple)
  labelOf : String → Option String
  fallbackTitle : String → String

/-- The accumulation loop of `process_celex` restricted to one key:
the values appended to `current_row[key]`, in triple order. Literals
append their string form; references append the resolved label. -/
def collectTriples (labelOf : String → Option String) (triples : List Triple)
    (key : String) : List String :=
  triples.filterMap (fun t =>
    if property_lookup t.pred = some key then
      some (match t.obj with
            | RDFObject.lit s => s
            | RDFObject.ref uri => get_string_label labelOf uri key)
    else none)

/-- Lexicographic code-point order on strings, stated over the
character lists so that it evaluates inside the kernel; this is the
order Python applies when sorting strings. -/
def str_le (a b : String) : Prop := a.data ≤ b.data

instance : DecidableRel str_le := fun a b => inferInstanceAs (Decidable (a.data ≤ b.data))

/-- Python `sorted(set(v))`: the deduplicated values in ascending
lexicographic order. -/
def sortedDedup (v : List String) : List String :=
  List.insertionSort str_le v.dedup

/-- The per-key normalization of `process_celex`: empty list to empty
string, singleton to its element, otherwise
`' | '.join(sorted(set(v)))`. -/
def normalize (v : List String) : String :=
  match v with
  | [] => ""
  | [x] => x
  | _ :: _ :: _ => " | ".intercalate (sortedDedup v)

/-- `process_celex`: assemble one output row for one identifier. On a
failed primary fetch, the degraded identifier-only row; otherwise the
normalized fields in header order, with the scraped fallback title
substituted when the graph-derived title is empty, and the celex
column taken verbatim from the input identifier. -/
def process_celex (env : Env) (celex_num : String) : List String :=
  match env.fetchGraph celex_num with
  | none => celex_num :: List.replicate (metadata_header_row.length - 1) ""
  | some triples =>
    let normalized : String → String := fun k => normalize (collectTriples env.labelOf triples k)
    let titleVal : String :=
      if normalized "title" = "" then env.fallbackTitle celex_num else normalized "title"
    metadata_header_row.map (fun f =>
      if f = "celex" then celex_num
      else if f = "title" then titleVal
      else normalized f)

/-- The per-identifier exception boundary shared by both
orchestrators: `fut.result()` or direct `process_celex` either yields
a row (`Except.ok`) or raises (`Except.error`), in which case the
degraded identifier-only row is substituted. -/
def handle_result (celex_id : String) (r : Except Unit (List String)) : List String :=
  match r with
  | Except.ok row => row
  | Except.error _ => celex_id :: List.replicate (metadata_header_row.length - 1) ""

/-- `get_metadata_sequential`: header first, then one row per
identifier in input order. `work` models the guarded `process_celex`
call (the early return on an empty input list coincides with the
general case). -/
def get_metadata_sequential (work : String → Except Unit (List String))
    (celex_nums : List String) : List (List String) :=
  metadata_header_row :: celex_nums.map (fun c => handle_result c (work c))

/-- `get_metadata_parallel`: header first, then rows appended in the
order futures complete. `order` is the completion order of the
submitted futures, a permutation of the input positions; `futures[fut]`
recovers the identifier at that position. -/
def get_metadata_parallel (work : String → Except Unit (List String))
    (celex_nums : List String) (order : List Nat) : List (List String) :=
  metadata_header_row ::
    order.filterMap (fun i => (celex_nums[i]?).map (fun c => handle_result c (work c)))

/-- Fault injection used by the isolation witness: one identifier
raises, every other yields a one-cell row. -/
def faultyWork : String → Except Unit (List String) :=
  fun s => if s = "x" then Except.error () else Except.ok [s]

end EUReg

namespace EUReg

lemma str_le_iff (a b : String) : str_le a b ↔ a ≤ b := by
  rw [str_le, ← String.toList, ← String.toList, ← String.le_iff_toList_le]

instance : IsTotal String str_le :=
  ⟨fun a b => by rw [str_le_iff, str_le_iff]; exact le_total a b⟩

instance : IsTrans String str_le :=
  ⟨fun a b c hab hbc => by
    rw [str_le_iff] at hab hbc ⊢
    exact le_trans hab hbc⟩

lemma data_mk (l : List Char) : (String.mk l).data = l := rfl

lemma filterMap_range_map {α β : Type} (l : List α) (g : α → β) :
    (List.range l.length).filterMap (fun i => (l[i]?).map g) = l.map g := by
  induction l with
  | nil => simp
  | cons a t ih =>
    rw [List.length_cons, List.range_succ_eq_map, List.filterMap_cons]
    simp only [List.getElem?_cons_zero, Option.map_some']
    rw [List.filterMap_map]
    have h : ((fun i => ((a :: t)[i]?).map g) ∘ Nat.succ) = fun i => (t[i]?).map g := by
      funext i
      simp
    rw [h, ih, List.map_cons]

lemma parallel_tail_perm (work : String → Except Unit (List String))
    (celex_nums : List String) (order : List Nat)
    (h : order.Perm (List.range celex_nums.length)) :
    (get_metadata_parallel work celex_nums order).tail.Perm
      (celex_nums.map (fun c => handle_result c (work c))) := by
  have h2 := h.filterMap (fun i => (celex_nums[i]?).map (fun c => handle_result c (work c)))
  rw [filterMap_range_map] at h2
  simpa [get_metadata_parallel] using h2

lemma split_slash_append (ys : List Char) (xs : List Char) :
    ∀ acc, split_slash (xs ++ '/' :: ys) acc = split_slash xs acc ++ split_slash ys [] := by
  induction xs with
  | nil => intro acc; simp [split_slash]
  | cons c cs ih =>
    intro acc
    by_cases hc : c = '/'
    · simp [split_slash, hc, ih]
    · simp [split_slash, hc, ih]

lemma split_slash_no_sep (ys : List Char) :
    ∀ acc, '/' ∉ ys → split_slash ys acc = [acc.reverse ++ ys] := by
  induction ys with
  | nil => intro acc _; simp [split_slash]
  | cons c cs ih =>
    intro acc h
    have hc : ¬ c = '/' := fun e => h (by rw [e]; exact List.mem_cons_self _ _)
    have hcs : '/' ∉ cs := fun hm => h (List.mem_cons_of_mem c hm)
    simp [split_slash, hc, ih (c :: acc) hcs]

lemma join_slash_cons (a : List Char) (l : List (List Char)) (h : l ≠ []) :
    join_slash (a :: l) = a ++ '/' :: join_slash l := by
  cases l with
  | nil => exact absurd rfl h
  | cons b t => rfl

lemma join_slash_split (z : List Char) (xs : List Char) :
    ∀ acc, join_slash (split_slash xs acc ++ [z]) = acc.reverse ++ xs ++ '/' :: z := by
  induction xs with
  | nil => intro acc; simp [split_slash, join_slash]
  | cons c cs ih =>
    intro acc
    by_cases hc : c = '/'
    · subst hc
      rw [split_slash, if_pos rfl, List.cons_append,
        join_slash_cons _ _ (by simp), ih []]
      simp
    · rw [split_slash, if_neg hc, ih (c :: acc)]
      simp

lemma get_string_label_uri_dc (pre seg : List Char) (h : '/' ∉ seg) :
    get_string_label_uri (String.mk (pre ++ '/' :: seg)) "directory_code" =
      String.mk (pre ++ '/' :: seg.take 2) := by
  rw [get_string_label_uri, if_pos rfl]
  simp only [data_mk, split_slash_append seg pre, split_slash_no_sep seg [] h,
    List.reverse_nil, List.nil_append]
  rw [if_neg (by simp)]
  rw [List.dropLast_concat, List.getLastD_concat, join_slash_split]
  simp

end EUReg

namespace EUReg

/-- C2: each accumulated value list normalizes as: empty list to the
empty string, a singleton to its element unchanged, and two or more
elements to the deduplicated, lexicographically ascending, " | "
joined string; in particular ["b", "a", "a"] normalizes to "a | b". -/
theorem C2_normalize_fields :
    normalize [] = "" ∧ (∀ x : String, normalize [x] = x) ∧
    (∀ v : List String, 2 ≤ v.length →
      normalize v = " | ".intercalate (sortedDedup v) ∧
      (sortedDedup v).Sorted (· ≤ ·) ∧ (sortedDedup v).Nodup ∧
      (∀ s, s ∈ sortedDedup v ↔ s ∈ v)) ∧
    normalize ["b", "a", "a"] = "a | b" := by
  refine ⟨rfl, fun x => rfl, ?_, by decide⟩
  intro v hv
  have hsorted : (sortedDedup v).Sorted (· ≤ ·) := by
    have h := List.sorted_insertionSort str_le v.dedup
    exact h.imp (fun hab => (str_le_iff _ _).mp hab)
  have hnodup : (sortedDedup v).Nodup :=
    (List.perm_insertionSort str_le v.dedup).nodup_iff.mpr (List.nodup_dedup v)
  have hmem : ∀ s, s ∈ sortedDedup v ↔ s ∈ v := fun s =>
    ((List.perm_insertionSort str_le v.dedup).mem_iff).trans List.mem_dedup
  refine ⟨?_, hsorted, hnodup, hmem⟩
  match v, hv with
  | a :: b :: t, _ => rfl

/-- C2 witness at the concrete value list ["b", "a", "a"]. -/
theorem C2_witness :
    2 ≤ (["b", "a", "a"] : List String).length ∧
    (normalize ["b", "a", "a"] = " | ".intercalate (sortedDedup ["b", "a", "a"]) ∧
     (sortedDedup ["b", "a", "a"]).Sorted (· ≤ ·) ∧
     (sortedDedup ["b", "a", "a"]).Nodup ∧
     (∀ s, s ∈ sortedDedup ["b", "a", "a"] ↔ s ∈ (["b", "a", "a"] : List String))) :=
  ⟨by decide, C2_normalize_fields.2.2.1 ["b", "a", "a"] (by decide)⟩

/-- C3: for the directory_code property key, the label query targets
the reference URI with its final path segment replaced by that
segment's first two characters, all other segments unchanged; every
other property key queries the URI unmodified; in particular a URI
ending in /1234 is looked up as the URI ending in /12. -/
theorem C3_directory_code_truncation :
    (∀ (labelOf : String → Option String) (uri pred : String), pred ≠ "directory_code" →
       get_string_label labelOf uri pred = (labelOf uri).getD "") ∧
    (∀ (labelOf : String → Option String) (pre seg : List Char), '/' ∉ seg →
       get_string_label labelOf (String.mk (pre ++ '/' :: seg)) "directory_code" =
         (labelOf (String.mk (pre ++ '/' :: seg.take 2))).getD "") ∧
    (∀ labelOf : String → Option String,
       get_string_label labelOf "http://eur/dc/1234" "directory_code" =
         (labelOf "http://eur/dc/12").getD "") := by
  refine ⟨?_, ?_, ?_⟩
  · intro labelOf uri pred h
    rw [get_string_label, get_string_label_uri, if_neg h]
  · intro labelOf pre seg h
    rw [get_string_label, get_string_label_uri_dc pre seg h]
  · intro labelOf
    have h : get_string_label_uri "http://eur/dc/1234" "directory_code" = "http://eur/dc/12" := by
      decide
    rw [get_string_label, h]

/-- C3 witness: an identity label table observed at a non-truncated
key and at directory_code, with concrete URIs. -/
theorem C3_witness :
    get_string_label some "u/v" "title" = "u/v" ∧
    get_string_label some (String.mk ("u".data ++ '/' :: "1234".data)) "directory_code" =
      (some (String.mk ("u".data ++ '/' :: ("1234".data).take 2))).getD "" := by
  constructor
  · have h := C3_directory_code_truncation.1 some "u/v" "title" (by decide)
    simpa using h
  · exact C3_directory_code_truncation.2.1 some "u".data "1234".data (by decide)

end EUReg

namespace EUReg

lemma sparql_attempts_congr (results results2 : Nat → Option String) (jitter : Nat → ℚ) :
    ∀ fuel i, (∀ j, i ≤ j → j < i + fuel → results2 j = results j) →
      sparql_attempts results2 jitter fuel i = sparql_attempts results jitter fuel i := by
  intro fuel
  induction fuel with
  | zero => intro i _; rfl
  | succ n ih =>
    intro i h
    rw [sparql_attempts, sparql_attempts, h i (le_refl i) (by omega)]
    cases results i with
    | some s => rfl
    | none => rw [ih (i + 1) (fun j h1 h2 => h j (by omega) (by omega))]

/-- C4: when every attempt fails, the query helper makes exactly 4
attempts, sleeping after each one the exponential backoff delay
min(8, 0.8 * 2 ^ attempt) plus the jitter sample, and then returns the
failure sentinel; it never consults a 5th attempt, and it never
returns the sentinel unless all 4 attempts failed. -/
theorem C4_retry_exhaustion :
    ∀ (results : Nat → Option String) (jitter : Nat → ℚ),
      ((∀ i, i < 4 → results i = none) →
        execute_sparql_turtle results jitter =
          (none, [min 8 (4 / 5 * 2 ^ 0) + jitter 0, min 8 (4 / 5 * 2 ^ 1) + jitter 1,
                  min 8 (4 / 5 * 2 ^ 2) + jitter 2, min 8 (4 / 5 * 2 ^ 3) + jitter 3])) ∧
      ((execute_sparql_turtle results jitter).1 = none → ∀ i, i < 4 → results i = none) ∧
      (∀ results2 : Nat → Option String, (∀ i, i < 4 → results2 i = results i) →
        execute_sparql_turtle results2 jitter = execute_sparql_turtle results jitter) := by
  intro results jitter
  refine ⟨?_, ?_, ?_⟩
  · intro h
    have h0 := h 0 (by norm_num)
    have h1 := h 1 (by norm_num)
    have h2 := h 2 (by norm_num)
    have h3 := h 3 (by norm_num)
    show sparql_attempts results jitter (3 + 1) 0 = _
    rw [sparql_attempts, h0]
    show (_, backoff_delay 0 (jitter 0) :: (sparql_attempts results jitter (2 + 1) 1).2) = _
    rw [sparql_attempts, h1]
    show (_, _ :: backoff_delay 1 (jitter 1) :: (sparql_attempts results jitter (1 + 1) 2).2) = _
    rw [sparql_attempts, h2]
    show (_, _ :: _ :: backoff_delay 2 (jitter 2) :: (sparql_attempts results jitter (0 + 1) 3).2) = _
    rw [sparql_attempts, h3, sparql_attempts]
    simp [backoff_delay]
  · intro h i hi
    interval_cases i <;>
      [skip; skip; skip; skip] <;>
      · revert h
        show (sparql_attempts results jitter (3 + 1) 0).1 = none → _
        rw [sparql_attempts]
        cases hr0 : results 0 with
        | some s => intro h; exact absurd h (by simp)
        | none =>
          rw [sparql_attempts]
          cases hr1 : results 1 with
          | some s => intro h; simp at h
          | none =>
            rw [sparql_attempts]
            cases hr2 : results 2 with
            | some s => intro h; simp at h
            | none =>
              rw [sparql_attempts]
              cases hr3 : results 3 with
              | some s => intro h; simp at h
              | none => intro _; assumption
  · intro results2 hagree
    exact sparql_attempts_congr results results2 jitter 4 0
      (fun j h1 h2 => hagree j (by omega))

end EUReg

namespace EUReg

/-- C4 witness: a client mocked to fail every attempt, with zero
jitter, is consulted exactly 4 times and yields the failure sentinel
together with the four backoff delays. -/
theorem C4_witness :
    execute_sparql_turtle (fun _ => none) (fun _ => 0) =
      (none, [min 8 (4 / 5 * 2 ^ 0) + 0, min 8 (4 / 5 * 2 ^ 1) + 0,
              min 8 (4 / 5 * 2 ^ 2) + 0, min 8 (4 / 5 * 2 ^ 3) + 0]) :=
  (C4_retry_exhaustion (fun _ => none) (fun _ => 0)).1 (fun _ _ => rfl)

/-- C5: when the primary graph fetch fails, the assembled record is
the input identifier followed by 12 empty fields, one per remaining
header column, returned as an ordinary value. -/
theorem C5_degraded_record :
    ∀ (env : Env) (celex_num : String), env.fetchGraph celex_num = none →
      process_celex env celex_num = celex_num :: List.replicate 12 "" ∧
      (process_celex env celex_num).length = metadata_header_row.length := by
  intro env c h
  rw [process_celex, h]
  constructor
  · rfl
  · rfl

/-- C5 witness at a concrete identifier and an always-failing fetch. -/
theorem C5_witness :
    (Env.mk (fun _ => none) (fun _ => none) (fun _ => "t")).fetchGraph "32019R0001" = none ∧
    process_celex (Env.mk (fun _ => none) (fun _ => none) (fun _ => "t")) "32019R0001" =
      "32019R0001" :: List.replicate 12 "" :=
  ⟨rfl, (C5_degraded_record (Env.mk (fun _ => none) (fun _ => none) (fun _ => "t"))
    "32019R0001" rfl).1⟩

/-- C6: after a successful fetch, the fallback scraper determines the
title field exactly when the graph-derived title normalizes to the
empty string, in which case the title column equals the scraper
result verbatim; when the graph title is non-empty the record is
independent of the scraper. -/
theorem C6_title_fallback :
    ∀ (env : Env) (celex_num : String) (triples : List Triple),
      env.fetchGraph celex_num = some triples →
      ((normalize (collectTriples env.labelOf triples "title") = "" →
         (process_celex env celex_num)[4]? = some (env.fallbackTitle celex_num)) ∧
       (normalize (collectTriples env.labelOf triples "title") ≠ "" →
         ∀ fb : String → String,
           process_celex { env with fallbackTitle := fb } celex_num =
             process_celex env celex_num)) := by
  intro env c triples h
  constructor
  · intro ht
    rw [process_celex, h]
    simp [metadata_header_row, ht]
  · intro ht fb
    show process_celex ⟨env.fetchGraph, env.labelOf, fb⟩ c = process_celex env c
    rw [process_celex, process_celex]
    simp only [h]
    rw [if_neg ht, if_neg ht]

/-- C6 witness: with no title triple the scraped title lands in the
title column. -/
theorem C6_witness :
    (Env.mk (fun _ => some []) (fun _ => none) (fun _ => "fb")).fetchGraph "c1" = some [] ∧
    normalize (collectTriples (fun _ => none) [] "title") = "" ∧
    (process_celex (Env.mk (fun _ => some []) (fun _ => none) (fun _ => "fb")) "c1")[4]? =
      some "fb" :=
  ⟨rfl, rfl,
    (C6_title_fallback (Env.mk (fun _ => some []) (fun _ => none) (fun _ => "fb"))
      "c1" [] rfl).1 rfl⟩

end EUReg

namespace EUReg

/-- C1 as stated fails: with completion order reversed, the parallel
orchestrator emits the rows in completion order, not input order. -/
theorem C1_counterexample :
    List.Perm [1, 0] (List.range 2) ∧
    get_metadata_parallel (fun c => Except.ok [c]) ["a", "b"] [1, 0] ≠
      metadata_header_row ::
        (["a", "b"].map (fun c => handle_result c (Except.ok [c]))) := by decide

/-- C1 amended: both orchestrators emit the header and then exactly
one row per input identifier; the sequential orchestrator emits them
in input order, while the parallel orchestrator emits them in
completion order, a permutation of the input-order rows. -/
theorem C1_row_order :
    ∀ (work : String → Except Unit (List String)) (celex_nums : List String)
      (order : List Nat), order.Perm (List.range celex_nums.length) →
      (get_metadata_sequential work celex_nums =
         metadata_header_row :: celex_nums.map (fun c => handle_result c (work c)) ∧
       (get_metadata_parallel work celex_nums order).tail.Perm
         (celex_nums.map (fun c => handle_result c (work c))) ∧
       (get_metadata_parallel work celex_nums order).tail.length = celex_nums.length) := by
  intro work celex_nums order h
  have hperm := parallel_tail_perm work celex_nums order h
  exact ⟨rfl, hperm, by rw [hperm.length_eq, List.length_map]⟩

/-- C1 witness at two identifiers and the reversed completion order. -/
theorem C1_witness :
    List.Perm [1, 0] (List.range (["a", "b"] : List String).length) ∧
    (get_metadata_sequential (fun c => Except.ok [c]) ["a", "b"] =
       metadata_header_row ::
         (["a", "b"] : List String).map (fun c => handle_result c (Except.ok [c])) ∧
     (get_metadata_parallel (fun c => Except.ok [c]) ["a", "b"] [1, 0]).tail.Perm
       ((["a", "b"] : List String).map (fun c => handle_result c (Except.ok [c]))) ∧
     (get_metadata_parallel (fun c => Except.ok [c]) ["a", "b"] [1, 0]).tail.length =
       (["a", "b"] : List String).length) :=
  ⟨by decide, C1_row_order (fun c => Except.ok [c]) ["a", "b"] [1, 0] (by decide)⟩

/-- C7: a raised per-identifier exception is replaced at the boundary
by the degraded identifier-only row, and every other identifier still
contributes its row in both orchestrators. -/
theorem C7_isolation :
    ∀ (work : String → Except Unit (List String)) (celex_nums : List String)
      (order : List Nat) (e : String),
      order.Perm (List.range celex_nums.length) → work e = Except.error () →
      (handle_result e (work e) = e :: List.replicate 12 "" ∧
       get_metadata_sequential work celex_nums =
         metadata_header_row :: celex_nums.map (fun c => handle_result c (work c)) ∧
       (get_metadata_parallel work celex_nums order).tail.Perm
         (celex_nums.map (fun c => handle_result c (work c))) ∧
       ∀ c ∈ celex_nums,
         handle_result c (work c) ∈ (get_metadata_parallel work celex_nums order).tail) := by
  intro work celex_nums order e hord hw
  have hperm := parallel_tail_perm work celex_nums order hord
  refine ⟨by rw [hw]; rfl, rfl, hperm, ?_⟩
  intro c hc
  exact hperm.mem_iff.mpr (List.mem_map_of_mem _ hc)

/-- C7 witness: one of three identifiers raises; the other two rows
are still present in the parallel output. -/
theorem C7_witness :
    List.Perm [2, 0, 1] (List.range (["a", "x", "b"] : List String).length) ∧
    faultyWork "x" = Except.error () ∧
    handle_result "x" (faultyWork "x") = "x" :: List.replicate 12 "" ∧
    handle_result "a" (faultyWork "a") ∈
      (get_metadata_parallel faultyWork ["a", "x", "b"] [2, 0, 1]).tail ∧
    handle_result "b" (faultyWork "b") ∈
      (get_metadata_parallel faultyWork ["a", "x", "b"] [2, 0, 1]).tail :=
  ⟨by decide, rfl,
    (C7_isolation faultyWork ["a", "x", "b"] [2, 0, 1] "x" (by decide) rfl).1,
    (C7_isolation faultyWork ["a", "x", "b"] [2, 0, 1] "x" (by decide) rfl).2.2.2 "a"
      (by decide),
    (C7_isolation faultyWork ["a", "x", "b"] [2, 0, 1] "x" (by decide) rfl).2.2.2 "b"
      (by decide)⟩

/-- C8 as stated fails: identical mocked responses but different
completion orders give different output tables. -/
theorem C8_counterexample :
    List.Perm [0, 1] (List.range 2) ∧ List.Perm [1, 0] (List.range 2) ∧
    get_metadata_parallel (fun c => Except.ok [c, c]) ["a", "b"] [0, 1] ≠
      get_metadata_parallel (fun c => Except.ok [c, c]) ["a", "b"] [1, 0] := by decide

/-- C8 amended: with an identical mocked response mapping, two
parallel invocations produce output tables with the same header and
the same rows up to completion-order permutation, and byte-identical
tables whenever the completion orders coincide (in particular in the
deterministic sequential mode). -/
theorem C8_determinism :
    ∀ (work : String → Except Unit (List String)) (celex_nums : List String)
      (o1 o2 : List Nat),
      o1.Perm (List.range celex_nums.length) → o2.Perm (List.range celex_nums.length) →
      ((get_metadata_parallel work celex_nums o1).Perm
         (get_metadata_parallel work celex_nums o2) ∧
       (get_metadata_parallel work celex_nums o1).head? =
         (get_metadata_parallel work celex_nums o2).head? ∧
       (o1 = o2 → get_metadata_parallel work celex_nums o1 =
         get_metadata_parallel work celex_nums o2)) := by
  intro work celex_nums o1 o2 h1 h2
  have p1 := parallel_tail_perm work celex_nums o1 h1
  have p2 := parallel_tail_perm work celex_nums o2 h2
  have ptail := p1.trans p2.symm
  refine ⟨?_, rfl, fun h => by rw [h]⟩
  show (metadata_header_row :: _).Perm (metadata_header_row :: _)
  exact List.Perm.cons _ (by simpa [get_metadata_parallel] using ptail)

/-- C8 witness at two identifiers and two distinct completion orders. -/
theorem C8_witness :
    List.Perm [0, 1] (List.range (["a", "b"] : List String).length) ∧
    List.Perm [1, 0] (List.range (["a", "b"] : List String).length) ∧
    (get_metadata_parallel (fun c => Except.ok [c, c]) ["a", "b"] [0, 1]).Perm
      (get_metadata_parallel (fun c => Except.ok [c, c]) ["a", "b"] [1, 0]) :=
  ⟨by decide, by decide,
    (C8_determinism (fun c => Except.ok [c, c]) ["a", "b"] [0, 1] [1, 0]
      (by decide) (by decide)).1⟩

end EUReg

namespace EUReg

lemma loader_eq : ∀ rows, read_celex_list rows = celex_list_spec rows := by
  intro rows
  induction rows with
  | nil => rfl
  | cons row t ih =>
    cases row with
    | nil => simpa [read_celex_list, celex_list_spec, List.filterMap_cons] using ih
    | cons c0 rest =>
      by_cases hc : py_strip c0 = "" ∨ py_lower (py_strip c0) = "celex"
      · have hb : (!decide (py_strip c0 = "") && !decide (py_lower (py_strip c0) = "celex")) =
            false := by
          rcases hc with h1 | h2
          · simp [h1]
          · simp [h2]
        simpa [read_celex_list, celex_list_spec, List.filterMap_cons, hc,
          List.filter_cons, hb] using ih
      · push_neg at hc
        have hb : (!decide (py_strip c0 = "") && !decide (py_lower (py_strip c0) = "celex")) =
            true := by simp [hc.1, hc.2]
        have hc2 : ¬ (py_strip c0 = "" ∨ py_lower (py_strip c0) = "celex") := by
          rw [not_or]
          exact hc
        simpa [read_celex_list, celex_list_spec, List.filterMap_cons, hc2,
          List.filter_cons, hb] using ih

/-- C9 as stated fails: the loader keeps duplicate identifiers. -/
theorem C9_counterexample :
    read_celex_list [["a"], ["a"]] = ["a", "a"] ∧
    ¬ (read_celex_list [["a"], ["a"]]).Nodup := by decide

/-- C9 amended: the loader returns the stripped first-column cells,
skipping empty rows, blank cells and case-insensitive "celex" header
cells, in input order and with duplicates retained (no
deduplication); every returned identifier is non-blank and is not a
header token. -/
theorem C9_loader :
    ∀ rows : List (List String),
      read_celex_list rows = celex_list_spec rows ∧
      ∀ s ∈ read_celex_list rows, s ≠ "" ∧ py_lower s ≠ "celex" := by
  intro rows
  refine ⟨loader_eq rows, ?_⟩
  intro s hs
  rw [loader_eq rows] at hs
  have h := (List.mem_filter.mp hs).2
  simp only [decide_eq_true_eq] at h
  push_neg at h
  exact h

/-- C9 witness: a header row, whitespace, an empty row, and a
multi-cell row, observed at a concrete returned identifier. -/
theorem C9_witness :
    read_celex_list [[" celex "], [" a "], [], ["b", "zz"]] =
      celex_list_spec [[" celex "], [" a "], [], ["b", "zz"]] ∧
    ("a" ∈ read_celex_list [[" celex "], [" a "], [], ["b", "zz"]]) ∧
    ("a" : String) ≠ "" ∧ py_lower "a" ≠ "celex" :=
  ⟨(C9_loader [[" celex "], [" a "], [], ["b", "zz"]]).1, by decide,
    (C9_loader [[" celex "], [" a "], [], ["b", "zz"]]).2 "a" (by decide)⟩

/-- C10: the celex column of the assembled row is the input
identifier verbatim, for every mocked graph content and in both the
degraded and the successful branch; accumulated celex-predicate
values never reach the row. -/
theorem C10_celex_verbatim :
    ∀ (env : Env) (celex_num : String),
      (process_celex env celex_num).head? = some celex_num := by
  intro env c
  cases h : env.fetchGraph c with
  | none => rw [process_celex, h]; rfl
  | some triples => rw [process_celex, h]; simp [metadata_header_row]

end EUReg
